import Mathlib

/- Verification of the metrics-logging core of
   src/pytorch_lightning/loggers/gdrive.py.

   Shallow embedding: the remote worksheet is a list of written cells
   (most recent write first, so earlier entries shadow later ones); every
   interaction with the remote spreadsheet service (gspread `row_values`,
   `range`, `acell`, `update`, `update_cells`) is recorded as a `NetEvent`
   so that claims about network reads and writes can be stated.  Python
   dictionaries are modelled as association lists preserving insertion
   order; `frozenset` keys are modelled as key lists compared by set
   equality (`setEqS`).  Exceptions (`KeyError`, `AttributeError`) are
   modelled as `Option String` error results / `Except String` values,
   with the partially-mutated state returned alongside, matching Python
   semantics where the object keeps mutations made before the raise. -/

namespace GDrive

/-- Spreadsheet cell contents.  Numeric metric values are modelled as
integers (`vnum`), `torch.Tensor` scalar wrappers as `vtensor` (whose
`.item()` unwraps to `vnum`), strings as `vstr`, and Python `None` or an
empty remote cell as `vnone`. -/
inductive Value where
  | vnone
  | vnum (n : Int)
  | vstr (s : String)
  | vtensor (n : Int)
deriving DecidableEq, Repr

/-- A spreadsheet cell: (row, column, value), 1-based coordinates, as in
the gspread `Cell` objects that `Table.update` buffers. -/
abbrev Cell := Nat × Nat × Value

/-- Remote worksheet state: the list of cells ever written, most recent
first; `getCell` returns the first match, so later writes shadow earlier
ones, matching repeated `update_cells` calls against the real service. -/
abbrev RemoteWS := List Cell

/-- A Python dict of metric name to value, as an insertion-ordered
association list. -/
abbrev RowMap := List (String × Value)

/-- Remote interactions issued against the two external services, as
listed in the spec's external-interface section. -/
inductive NetEvent where
  | readRowValues (row : Nat)
  | readRange (r1 c1 r2 c2 : Nat)
  | readAcell (r c : Nat)
  | writeRange (cells : List Cell)
  | writeCells (cells : List Cell)
deriving DecidableEq, Repr

/-- Whether a remote interaction writes to the document. -/
def NetEvent.isWrite : NetEvent → Bool
  | .writeRange _ => true
  | .writeCells _ => true
  | _ => false

/-- Current contents of a remote cell (empty cells read as `vnone`). -/
def getCell (w : RemoteWS) (r c : Nat) : Value :=
  match w.find? (fun p => p.1 == r && p.2.1 == c) with
  | some p => p.2.2
  | none => Value.vnone

/-- Apply a batch of cell writes (`update_cells`) to the remote state:
cells are written in list order, so a later cell in the batch wins; with
the most-recent-first representation this is reverse-prepending. -/
def applyCells (w : RemoteWS) (cs : List Cell) : RemoteWS :=
  cs.reverse ++ w

/-- Whether a cell value renders as a non-empty spreadsheet cell. -/
def isNonempty : Value → Bool
  | .vnone => false
  | .vstr s => !(s == "")
  | _ => true

/-- Length of `worksheet.row_values(r)`: gspread returns the row's values
up to the last non-empty cell, so the length is the largest (1-based)
column index holding a non-empty value, and `0` for an empty row. -/
def rowLen (w : RemoteWS) (r : Nat) : Nat :=
  w.foldr (fun p acc =>
    if p.1 == r && isNonempty (getCell w r p.2.1) then max p.2.1 acc else acc) 0

/-- Tensor unwrapping in `Table.update`: `if isinstance(v, torch.Tensor):
v = v.item()` (gdrive.py lines 42-43). -/
def unwrapValue : Value → Value
  | .vtensor n => .vnum n
  | v => v

/-- Value of `row[name]` for a Python dict modelled as an assoc list;
`none` models the `KeyError` raise. -/
def lookupVal (row : RowMap) (name : String) : Option Value :=
  (row.find? (fun p => p.1 == name)).map (fun p => p.2)

/-- The staging loop of `Table.update` (gdrive.py lines 40-45): walk the
header names left to right, look each one up in `row`, unwrap tensors and
record the cell at `(r, c + i)`.  On the first missing name the loop
stops with that name as the `KeyError` payload; cells staged before the
raise are kept, as in Python. -/
def stageRow (row : RowMap) : List String → Nat → Nat → List Cell × Option String
  | [], _, _ => ([], none)
  | n :: rest, r, c =>
    match lookupVal row n with
    | none => ([], some n)
    | some v =>
      let res := stageRow row rest r (c + 1)
      ((r, c, unwrapValue v) :: res.1, res.2)

/-- The cells staged for one fully-present row: name `i` of `names` (with
value `f name`, tensor-unwrapped) goes to `(r, c + i)`. -/
def stagedRowCells (r : Nat) (f : String → Value) : List String → Nat → List Cell
  | [], _ => []
  | n :: rest, c => (r, c, unwrapValue (f n)) :: stagedRowCells r f rest (c + 1)

/-- The `Table` class (gdrive.py lines 18-46): one column block of the
metrics worksheet.  Field names follow the source (`cells_buffer`,
`_col_offset`, `_last_step`, `_metrics_header`). -/
structure Table where
  cells_buffer : List Cell
  col_offset : Nat
  last_step : Nat
  metrics_header : List String
deriving DecidableEq, Repr

/-- Result of `Table.update`: the mutated table, the remote interactions
performed, and the `KeyError` payload if a header name was missing. -/
structure UpdateResult where
  table : Table
  events : List NetEvent
  error : Option String
deriving DecidableEq, Repr

/-- `Table.update` (gdrive.py lines 36-46): fetch the cell handles for
the current row via `worksheet.range` (a remote read), assign the row's
values into them, append them to `cells_buffer`, and advance
`_last_step` — but only when the whole row staged without a `KeyError`,
since in Python the increment on line 46 is never reached after a raise. -/
def Table.update (t : Table) (row : RowMap) : UpdateResult :=
  let res := stageRow row t.metrics_header t.last_step t.col_offset
  { table := { t with
      cells_buffer := t.cells_buffer ++ res.1,
      last_step := if res.2 = none then t.last_step + 1 else t.last_step },
    events := [.readRange t.last_step t.col_offset
                 t.last_step (t.col_offset + t.metrics_header.length - 1)],
    error := res.2 }

/-- The `_metrics.pop('step')` of `Table.__init__` (line 30): the stored
step value together with the dict minus its `step` entry (insertion order
preserved); `none` models the `KeyError` when `step` is absent. -/
def popStep (m : RowMap) : Option (Value × RowMap) :=
  match lookupVal m "step" with
  | none => none
  | some v => some (v, m.filter (fun p => !(p.1 == "step")))

/-- Header-name derivation of `Table.__init__` (lines 28-33): `step`
first when the popped step value is not `None`, then the remaining metric
names in dict (first-observed) order. -/
def headerOf (stepv : Value) (rest : RowMap) : List String :=
  (if stepv = Value.vnone then [] else ["step"]) ++ rest.map (fun p => p.1)

/-- Column offset computed by `Table.__init__` (lines 22-26) from the
remote header row: offset 1 when `row_values(header_row)` is empty,
otherwise its length plus 2 (one separator column). -/
def colOffsetOf (w : RemoteWS) (hr : Nat) : Nat :=
  if rowLen w hr = 0 then 1 else rowLen w hr + 2

/-- Result of `Table.__init__`: the constructed table and the remote
interactions it performed. -/
structure MkResult where
  table : Table
  events : List NetEvent
deriving DecidableEq, Repr

/-- `Table.__init__` (gdrive.py lines 19-34): read the header row
remotely, compute the column offset, derive the header names, and stage
the header cells through `update` with the `{h: h for h in header}` dict.
Returns `none` for the `KeyError` when `metrics` lacks a `step` key. -/
def mkTable (w : RemoteWS) (hr : Nat) (metrics : RowMap) : Option MkResult :=
  match popStep metrics with
  | none => none
  | some (stepv, rest) =>
    let off := colOffsetOf w hr
    let hdr := headerOf stepv rest
    let t0 : Table := ⟨[], off, hr, hdr⟩
    let r := t0.update (hdr.map (fun h => (h, Value.vstr h)))
    some ⟨r.table, .readRowValues hr :: r.events⟩

/-- A schema: the key set of one `log_metrics` call, kept as the key list
of the dict; Python's `frozenset` equality is `setEqS`. -/
abbrev Schema := List String

/-- Set equality of key lists, i.e. equality of the corresponding
`frozenset`s. -/
def setEqS (a b : Schema) : Bool :=
  a.all (fun x => b.contains x) && b.all (fun x => a.contains x)

/-- Lookup in the `_schema_to_table` dict: the first entry whose frozen
key set equals `fs`.  Entries are kept in insertion (first-appearance)
order, as Python dicts do. -/
def findEntry : List (Schema × Table) → Schema → Option Table
  | [], _ => none
  | (k, t) :: rest, fs => if setEqS k fs then some t else findEntry rest fs

/-- In-place update of the routed table: find the entry whose key set
equals `fs` and run `Table.update` on its table; `none` when no entry
matches (so a new table must be created). -/
def routeUpdate : List (Schema × Table) → Schema → RowMap →
    Option (List (Schema × Table) × List NetEvent × Option String)
  | [], _, _ => none
  | (k, t) :: rest, fs, fm =>
    if setEqS k fs then
      let r := t.update fm
      some ((k, r.table) :: rest, r.events, r.error)
    else
      (routeUpdate rest fs fm).map (fun res => ((k, t) :: res.1, res.2))

/-- The `MetricsWorkSheet` class (gdrive.py lines 49-89): the resolved
header row and the schema-to-table dict. -/
structure MetricsWorkSheet where
  header_row : Nat
  schema_to_table : List (Schema × Table)
deriving DecidableEq, Repr

/-- The `{**metrics, 'step': step}` merge of `log_metrics` (line 73): a
`step` entry already present keeps its dict position but takes the step
argument's value; otherwise `step` is appended last.  `step=None` is
stored as `vnone`. -/
def stepValue : Option Int → Value
  | none => .vnone
  | some n => .vnum n

/-- Python dict merge `{**metrics, 'step': step}`. -/
def fullMetrics (metrics : RowMap) (step : Option Int) : RowMap :=
  if metrics.any (fun p => p.1 == "step") then
    metrics.map (fun p => if p.1 == "step" then ("step", stepValue step) else p)
  else metrics ++ [("step", stepValue step)]

/-- Result of `log_metrics`: the mutated router, the remote interactions,
and the `KeyError` payload if one was raised. -/
structure LogResult where
  router : MetricsWorkSheet
  events : List NetEvent
  error : Option String
deriving DecidableEq, Repr

/-- `MetricsWorkSheet.log_metrics` plus `_get_table_for_set_of_metrics`
(gdrive.py lines 62-75): build the full metrics dict, route on its frozen
key set, lazily construct the table for an unseen key set (the new entry
is stored before `update` runs, as in line 68), and stage the data row. -/
def MetricsWorkSheet.log_metrics (m : MetricsWorkSheet) (w : RemoteWS)
    (metrics : RowMap) (step : Option Int) : LogResult :=
  let fm := fullMetrics metrics step
  let fs : Schema := fm.map (fun p => p.1)
  match routeUpdate m.schema_to_table fs fm with
  | some res => ⟨⟨m.header_row, res.1⟩, res.2.1, res.2.2⟩
  | none =>
    match mkTable w m.header_row fm with
    | none => { router := m, events := [], error := some "step" }
    | some mkr =>
      let r := mkr.table.update fm
      ⟨⟨m.header_row, m.schema_to_table ++ [(fs, r.table)]⟩,
        mkr.events ++ r.events, r.error⟩

/-- The concatenation of every table's buffer in table-creation order
(`save`, lines 79-81). -/
def aggregateCells (m : MetricsWorkSheet) : List Cell :=
  (m.schema_to_table.map (fun p => p.2.cells_buffer)).flatten

/-- Clearing every table's buffer after a successful flush (lines 84-85). -/
def clearBuffers (m : MetricsWorkSheet) : MetricsWorkSheet :=
  ⟨m.header_row,
   m.schema_to_table.map (fun p => (p.1, { p.2 with cells_buffer := [] }))⟩

/-- Result of `save`: mutated router, remote state, interactions, and
whether the batched remote write raised. -/
structure SaveResult where
  router : MetricsWorkSheet
  ws : RemoteWS
  events : List NetEvent
  raised : Bool
deriving DecidableEq, Repr

/-- `MetricsWorkSheet.save` (gdrive.py lines 77-85): aggregate all
buffers; when non-empty issue one batched `update_cells` and only then
clear the buffers.  The `ok` flag is the environment's choice of whether
the remote call succeeds; when it raises, the clearing loop after it is
never reached, so the router is returned unchanged. -/
def MetricsWorkSheet.save (m : MetricsWorkSheet) (w : RemoteWS) (ok : Bool) :
    SaveResult :=
  let agg := aggregateCells m
  if agg = [] then ⟨m, w, [], false⟩
  else if ok then ⟨clearBuffers m, applyCells w agg, [.writeCells agg], false⟩
  else ⟨m, w, [.writeCells agg], true⟩

/-- `MetricsWorkSheet.finalize` (lines 87-89): an alias for `save`
ignoring the status string. -/
def MetricsWorkSheet.finalize (m : MetricsWorkSheet) (w : RemoteWS) (ok : Bool)
    (_status : String) : SaveResult :=
  m.save w ok

/-- `MetricsWorkSheet.__init__` (gdrive.py lines 53-60): read cell B1,
default the header row to 3 when the cell is empty, and synchronously
write `["header_row", value]` back into A1:B1. -/
def initMetricsWorkSheet (w : RemoteWS) :
    MetricsWorkSheet × RemoteWS × List NetEvent :=
  let hr : Nat :=
    match getCell w 1 2 with
    | .vnum n => n.toNat
    | _ => 3
  let writeCs : List Cell := [(1, 1, .vstr "header_row"), (1, 2, .vnum hr)]
  (⟨hr, []⟩, applyCells w writeCs, [.readAcell 1 2, .writeRange writeCs])

/-! The version-resolution logic of `GDriveLogger.__init__`
(gdrive.py lines 96-116) and `_get_next_version` (lines 182-191). -/

/-- A file record returned by the file-storage `ListFile` query. -/
structure DriveFile where
  title : String
  mimeType : String
deriving DecidableEq, Repr

/-- `GDriveLogger.is_dir` (lines 174-176). -/
def is_dir (f : DriveFile) : Bool :=
  f.mimeType == "application/vnd.google-apps.folder"

/-- Python `str.startswith(pre)` on the character lists. -/
def beginsWith : List Char → List Char → Bool
  | [], _ => true
  | _ :: _, [] => false
  | a :: as, b :: bs => a == b && beginsWith as bs

/-- Python `str.split("_")` on the character list: maximal runs between
underscores (empty segments included, as in Python). -/
def splitSegs : List Char → List (List Char)
  | [] => [[]]
  | c :: rest =>
    let segs := splitSegs rest
    if c == '_' then [] :: segs
    else match segs with
      | [] => [[c]]
      | s :: ss => (c :: s) :: ss

/-- Python `int(s)` restricted to non-negative digit strings (all folder
titles the source generates are `version_<digits>`); `none` models the
`ValueError` on anything else. -/
def parseNatDigits : List Char → Nat → Option Nat
  | [], acc => some acc
  | c :: rest, acc =>
    if c.isDigit then parseNatDigits rest (acc * 10 + (c.toNat - 48)) else none

/-- `int(title.split("_")[1])` for a subfolder title (line 188); `none`
models the `ValueError` when the segment is not an integer. -/
def parseVersionInt (title : String) : Option Int :=
  match (splitSegs title.toList).getD 1 [] with
  | [] => none
  | seg => (parseNatDigits seg 0).map Int.ofNat

/-- The collection loop of `_get_next_version` (lines 185-188): gather
the integer suffix of every `version_`-prefixed subfolder, propagating
the `int()` `ValueError`. -/
def collectVersions : List DriveFile → Except String (List Int)
  | [] => .ok []
  | d :: rest =>
    if is_dir d && beginsWith "version_".toList d.title.toList then
      match parseVersionInt d.title with
      | none => .error "ValueError"
      | some n => (collectVersions rest).map (fun l => n :: l)
    else collectVersions rest

/-- `GDriveLogger._get_next_version` (lines 182-191).  The method begins
by interpolating `self.root_folder_id` into the ListFile query; in
`__init__` that attribute is only assigned on line 115, after this method
has already been called on line 107, so in the `version=None` flow the
attribute is absent and the access raises `AttributeError`.  That
possibly-absent attribute is the `Option String` argument. -/
def get_next_version (root_folder_id : Option String)
    (files : List DriveFile) : Except String Int :=
  match root_folder_id with
  | none => .error "AttributeError: root_folder_id"
  | some _ =>
    match collectVersions files with
    | .error e => .error e
    | .ok vs => .ok (match vs.max? with | none => 0 | some mx => mx + 1)

/-- The `version` constructor argument: `Optional[Union[int, str]]`. -/
inductive VersionArg where
  | vint (n : Int)
  | vstr (s : String)
deriving DecidableEq, Repr

/-- Lines 106-114 of `GDriveLogger.__init__`: resolve `self._version`
(calling `_get_next_version` when the argument is `None` — at which point
`self.root_folder_id` does not exist yet), compute the version folder
title, and then execute line 114, `self._version = version`, which
overwrites the resolved value with the original argument.  The result is
the final `self._version` (what the read-only `version` property returns)
paired with the version folder title. -/
def initVersion (version : Option VersionArg) (files : List DriveFile) :
    Except String (Option VersionArg × String) :=
  match version with
  | none =>
    match get_next_version none files with
    | .error e => .error e
    | .ok n => .ok (none, "version_" ++ toString n)
  | some v =>
    let folder :=
      match v with
      | .vstr s => s
      | .vint n => "version_" ++ toString n
    .ok (some v, folder)

/-! Helper lemmas. -/

/-- Spec-side description of the header names derived for a full metrics
dict: what `Table.__init__` computes after popping `step`. -/
def headerOfFM (fm : RowMap) : List String :=
  match popStep fm with
  | none => []
  | some (stepv, rest) => headerOf stepv rest

theorem setEqS_iff {a b : Schema} :
    setEqS a b = true ↔ ∀ x, x ∈ a ↔ x ∈ b := by
  unfold setEqS
  simp only [Bool.and_eq_true, List.all_eq_true]
  constructor
  · rintro ⟨h1, h2⟩ x
    constructor
    · intro hx
      exact List.elem_iff.mp (h1 x hx)
    · intro hx
      exact List.elem_iff.mp (h2 x hx)
  · intro h
    constructor
    · intro x hx
      exact List.elem_iff.mpr ((h x).mp hx)
    · intro x hx
      exact List.elem_iff.mpr ((h x).mpr hx)

theorem setEqS_congr_right {u v : Schema} (h : setEqS u v = true) (k : Schema) :
    setEqS k u = setEqS k v := by
  rcases hk : setEqS k u with _ | _
  · rcases hkv : setEqS k v with _ | _
    · rfl
    · exact absurd (setEqS_iff.mpr (fun x =>
        (setEqS_iff.mp hkv x).trans (setEqS_iff.mp h x).symm)) (by simp [hk])
  · exact (setEqS_iff.mpr (fun x =>
      (setEqS_iff.mp hk x).trans (setEqS_iff.mp h x))).symm

theorem find?_append_skip {p : α → Bool} {l₁ : List α} (l₂ : List α)
    (h : ∀ x ∈ l₁, p x = false) :
    (l₁ ++ l₂).find? p = l₂.find? p := by
  induction l₁ with
  | nil => rfl
  | cons a l ih =>
    have ha : p a = false := h a (by simp)
    simp only [List.cons_append, List.find?, ha]
    exact ih (fun x hx => h x (by simp [hx]))

theorem lookupVal_mem_keys {row : RowMap} {n : String} {v : Value}
    (h : lookupVal row n = some v) : n ∈ row.map (fun p => p.1) := by
  unfold lookupVal at h
  rcases hf : row.find? (fun p => p.1 == n) with _ | p
  · rw [hf] at h; simp at h
  · have hp := List.find?_some hf
    have hm := List.mem_of_find?_eq_some hf
    have : p.1 = n := by simpa using hp
    exact this ▸ List.mem_map_of_mem (fun p => p.1) hm

theorem lookupVal_isSome_of_mem {row : RowMap} {n : String}
    (h : n ∈ row.map (fun p => p.1)) : (lookupVal row n).isSome := by
  unfold lookupVal
  rcases hf : row.find? (fun p => p.1 == n) with _ | p
  · rcases List.mem_map.mp h with ⟨q, hq, hqn⟩
    have := List.find?_eq_none.mp hf q hq
    simp [hqn] at this
  · simp [hf]

theorem lookup_map_self {H : List String} {n : String} (h : n ∈ H) :
    lookupVal (H.map (fun s => (s, Value.vstr s))) n = some (Value.vstr n) := by
  induction H with
  | nil => cases h
  | cons a H ih =>
    by_cases han : a = n
    · subst han
      unfold lookupVal
      rw [List.map_cons, List.find?_cons_of_pos _ (by simp)]
      rfl
    · have hn : n ∈ H := by
        rcases List.mem_cons.mp h with h1 | h1
        · exact absurd h1.symm han
        · exact h1
      unfold lookupVal
      rw [List.map_cons, List.find?_cons_of_neg _ (by simp [han])]
      exact ih hn

theorem stagedRowCells_length (r : Nat) (f : String → Value)
    (names : List String) (c : Nat) :
    (stagedRowCells r f names c).length = names.length := by
  induction names generalizing c with
  | nil => rfl
  | cons n rest ih => simp [stagedRowCells, ih]

theorem stagedRowCells_rows (r : Nat) (f : String → Value)
    (names : List String) (c : Nat) :
    ∀ x ∈ stagedRowCells r f names c, x.1 = r := by
  induction names generalizing c with
  | nil => intro x hx; cases hx
  | cons n rest ih =>
    intro x hx
    rcases List.mem_cons.mp hx with h1 | h1
    · rw [h1]
    · exact ih (c + 1) x h1

theorem stagedRowCells_concat (r : Nat) (f : String → Value)
    (names : List String) (n : String) (c : Nat) :
    stagedRowCells r f (names ++ [n]) c =
      stagedRowCells r f names c ++ [(r, c + names.length, unwrapValue (f n))] := by
  induction names generalizing c with
  | nil => simp [stagedRowCells]
  | cons a rest ih =>
    have hc : c + 1 + rest.length = c + (rest.length + 1) := by omega
    show (r, c, unwrapValue (f a)) :: stagedRowCells r f (rest ++ [n]) (c + 1) =
      (r, c, unwrapValue (f a)) ::
        (stagedRowCells r f rest (c + 1) ++
          [(r, c + (rest.length + 1), unwrapValue (f n))])
    rw [ih (c + 1), hc]

theorem stageRow_total {row : RowMap} {names : List String} {f : String → Value}
    (h : ∀ n ∈ names, lookupVal row n = some (f n)) (r c : Nat) :
    stageRow row names r c = (stagedRowCells r f names c, none) := by
  induction names generalizing c with
  | nil => rfl
  | cons n rest ih =>
    have hn := h n (by simp)
    simp only [stageRow, hn, stagedRowCells]
    rw [ih (fun x hx => h x (by simp [hx])) (c + 1)]

theorem stageRow_rows (row : RowMap) (names : List String) (r c : Nat) :
    ∀ x ∈ (stageRow row names r c).1, x.1 = r := by
  induction names generalizing c with
  | nil => intro x hx; cases hx
  | cons n rest ih =>
    intro x hx
    rcases hl : lookupVal row n with _ | v
    · simp [stageRow, hl] at hx
    · simp only [stageRow, hl] at hx
      rcases List.mem_cons.mp hx with h1 | h1
      · rw [h1]
      · exact ih (c + 1) x h1

theorem stageRow_missing {row : RowMap} {pre : List String} {n : String}
    (post : List String) (hpre : ∀ x ∈ pre, (lookupVal row x).isSome)
    (hn : lookupVal row n = none) (r c : Nat) :
    ∃ cs, stageRow row (pre ++ n :: post) r c = (cs, some n) ∧
      cs.length = pre.length ∧
      ∀ i, (h : i < cs.length) →
        (cs.get ⟨i, h⟩).1 = r ∧ (cs.get ⟨i, h⟩).2.1 = c + i := by
  induction pre generalizing c with
  | nil =>
    refine ⟨[], ?_, rfl, by intro i h; cases h⟩
    simp [stageRow, hn]
  | cons a rest ih =>
    have ha : (lookupVal row a).isSome := hpre a (by simp)
    rcases hla : lookupVal row a with _ | v
    · rw [hla] at ha; simp at ha
    · rcases ih (fun x hx => hpre x (by simp [hx])) (c + 1) with ⟨cs, hc, hlen, hget⟩
      refine ⟨(r, c, unwrapValue v) :: cs, ?_, by simp [hlen], ?_⟩
      · simp only [List.cons_append, stageRow, hla, List.append_eq]
        rw [hc]
      · intro i h
        match i with
        | 0 => exact ⟨rfl, by simp⟩
        | i + 1 =>
          have h' : i < cs.length := by simpa using h
          refine ⟨(hget i h').1, ?_⟩
          have := (hget i h').2
          simp only [List.get_cons_succ]
          omega

theorem update_success {t : Table} {row : RowMap}
    (h : ∀ n ∈ t.metrics_header, (lookupVal row n).isSome) :
    t.update row =
      { table := { t with
          cells_buffer := t.cells_buffer ++
            stagedRowCells t.last_step
              (fun n => (lookupVal row n).getD Value.vnone)
              t.metrics_header t.col_offset,
          last_step := t.last_step + 1 },
        events := [.readRange t.last_step t.col_offset
                     t.last_step (t.col_offset + t.metrics_header.length - 1)],
        error := none } := by
  have h' : ∀ n ∈ t.metrics_header,
      lookupVal row n = some ((lookupVal row n).getD Value.vnone) := by
    intro n hn
    rcases hl : lookupVal row n with _ | v
    · have := h n hn; rw [hl] at this; simp at this
    · rfl
  unfold Table.update
  rw [stageRow_total h' t.last_step t.col_offset]
  rfl

theorem update_events (t : Table) (row : RowMap) :
    (t.update row).events = [.readRange t.last_step t.col_offset
      t.last_step (t.col_offset + t.metrics_header.length - 1)] := rfl

theorem update_header (t : Table) (row : RowMap) :
    (t.update row).table.metrics_header = t.metrics_header := rfl

theorem update_col_offset (t : Table) (row : RowMap) :
    (t.update row).table.col_offset = t.col_offset := rfl

theorem update_last_step_ge (t : Table) (row : RowMap) :
    t.last_step ≤ (t.update row).table.last_step := by
  unfold Table.update
  rcases h : (stageRow row t.metrics_header t.last_step t.col_offset).2 with _ | e
  · simp [h]
  · simp [h]

theorem update_buffer_grows (t : Table) (row : RowMap) :
    ∃ cs, (t.update row).table.cells_buffer = t.cells_buffer ++ cs ∧
      ∀ x ∈ cs, x.1 = t.last_step := by
  refine ⟨(stageRow row t.metrics_header t.last_step t.col_offset).1, rfl, ?_⟩
  exact stageRow_rows row t.metrics_header t.last_step t.col_offset

theorem lookup_fullMetrics_step (m : RowMap) (s : Option Int) :
    lookupVal (fullMetrics m s) "step" = some (stepValue s) := by
  unfold fullMetrics
  by_cases h : m.any (fun p => p.1 == "step") = true
  · rw [if_pos h]
    induction m with
    | nil => simp at h
    | cons p rest ih =>
      by_cases hp : p.1 = "step"
      · unfold lookupVal
        rw [List.map_cons, if_pos (by simp [hp]),
          List.find?_cons_of_pos _ (by simp)]
        rfl
      · have hrest : rest.any (fun p => p.1 == "step") = true := by
          rcases List.any_eq_true.mp h with ⟨q, hq, hqs⟩
          rcases List.mem_cons.mp hq with h1 | h1
          · rw [h1] at hqs; simp at hqs; exact absurd hqs hp
          · exact List.any_eq_true.mpr ⟨q, h1, hqs⟩
        unfold lookupVal
        rw [List.map_cons, if_neg (by simp [hp]),
          List.find?_cons_of_neg _ (by simp [hp])]
        exact ih hrest
  · rw [if_neg h]
    have hall : ∀ p ∈ m, (p.1 == "step") = false := by
      intro p hp
      rcases hb : (p.1 == "step") with _ | _
      · rfl
      · exact absurd (List.any_eq_true.mpr ⟨p, hp, hb⟩) h
    unfold lookupVal
    rw [find?_append_skip _ hall, List.find?_cons_of_pos _ (by simp)]
    rfl

theorem popStep_of_lookup {fm : RowMap} {v : Value}
    (h : lookupVal fm "step" = some v) :
    popStep fm = some (v, fm.filter (fun p => !(p.1 == "step"))) := by
  unfold popStep
  rw [h]

theorem fullMetrics_map_keys (m : RowMap) (s : Option Int) :
    (m.map (fun p => if p.1 == "step" then ("step", stepValue s) else p)).map
        (fun p => p.1) = m.map (fun p => p.1) := by
  induction m with
  | nil => rfl
  | cons p rest ih =>
    by_cases hp : p.1 = "step"
    · simp only [List.map_cons, if_pos (show (p.1 == "step") = true by simp [hp])]
      rw [ih, hp]
    · simp only [List.map_cons,
        if_neg (show ¬(p.1 == "step") = true by simp [hp])]
      rw [ih]

theorem fullMetrics_keys_indep (m : RowMap) (s₁ s₂ : Option Int) :
    (fullMetrics m s₁).map (fun p => p.1) =
      (fullMetrics m s₂).map (fun p => p.1) := by
  unfold fullMetrics
  by_cases h : m.any (fun p => p.1 == "step") = true
  · rw [if_pos h, if_pos h, fullMetrics_map_keys m s₁, fullMetrics_map_keys m s₂]
  · rw [if_neg h, if_neg h, List.map_append, List.map_append]
    rfl

theorem header_mem_keys {fm : RowMap} {stepv : Value} {rest : RowMap}
    (hp : popStep fm = some (stepv, rest)) :
    ∀ n ∈ headerOf stepv rest, n ∈ fm.map (fun p => p.1) := by
  intro n hn
  unfold popStep at hp
  rcases hl : lookupVal fm "step" with _ | v
  · rw [hl] at hp; simp at hp
  · rw [hl] at hp
    simp only [Option.some.injEq, Prod.mk.injEq] at hp
    rcases hp with ⟨hv, hrest⟩
    unfold headerOf at hn
    rcases List.mem_append.mp hn with h1 | h1
    · have hns : n = "step" := by
        by_cases hs : stepv = Value.vnone
        · rw [if_pos hs] at h1; cases h1
        · rw [if_neg hs] at h1; simpa using h1
      rw [hns]
      exact lookupVal_mem_keys hl
    · rcases List.mem_map.mp h1 with ⟨q, hq, hqn⟩
      rw [← hrest] at hq
      exact hqn ▸ List.mem_map_of_mem (fun p => p.1) (List.mem_of_mem_filter hq)

theorem stagedRowCells_congr {f g : String → Value} {names : List String}
    (h : ∀ n ∈ names, unwrapValue (f n) = unwrapValue (g n)) (r c : Nat) :
    stagedRowCells r f names c = stagedRowCells r g names c := by
  induction names generalizing c with
  | nil => rfl
  | cons a rest ih =>
    simp only [stagedRowCells, h a (by simp)]
    rw [ih (fun n hn => h n (by simp [hn])) (c + 1)]

theorem mkTable_spec {fm : RowMap} {stepv : Value} {rest : RowMap}
    (hp : popStep fm = some (stepv, rest)) (w : RemoteWS) (hr : Nat) :
    mkTable w hr fm = some
      ⟨⟨stagedRowCells hr Value.vstr (headerOf stepv rest) (colOffsetOf w hr),
        colOffsetOf w hr, hr + 1, headerOf stepv rest⟩,
       [.readRowValues hr,
        .readRange hr (colOffsetOf w hr) hr
          (colOffsetOf w hr + (headerOf stepv rest).length - 1)]⟩ := by
  have hlk : ∀ n ∈ headerOf stepv rest,
      lookupVal ((headerOf stepv rest).map (fun h => (h, Value.vstr h))) n =
        some (Value.vstr n) := fun n hn => lookup_map_self hn
  have hup := @update_success ⟨[], colOffsetOf w hr, hr, headerOf stepv rest⟩
    ((headerOf stepv rest).map (fun h => (h, Value.vstr h)))
    (fun n hn => by rw [hlk n hn]; rfl)
  have hcong := @stagedRowCells_congr
    (fun n => (lookupVal ((headerOf stepv rest).map
      (fun h => (h, Value.vstr h))) n).getD Value.vnone)
    Value.vstr
    (headerOf stepv rest)
    (fun n hn => by simp [hlk n hn]) hr (colOffsetOf w hr)
  unfold mkTable
  rw [hp]
  simp only [hup]
  simp only [List.nil_append, hcong]

theorem findEntry_congr {fs fs' : Schema} (h : setEqS fs fs' = true) :
    ∀ l, findEntry l fs = findEntry l fs' := by
  intro l
  induction l with
  | nil => rfl
  | cons p rest ih =>
    show (if setEqS p.1 fs then some p.2 else findEntry rest fs) = _
    rw [setEqS_congr_right h p.1, ih]
    rfl

theorem findEntry_none_iff {l : List (Schema × Table)} {fs : Schema} :
    findEntry l fs = none ↔ ∀ p ∈ l, setEqS p.1 fs = false := by
  induction l with
  | nil => simp [findEntry]
  | cons p rest ih =>
    constructor
    · intro h q hq
      rcases hs : setEqS p.1 fs with _ | _
      · rcases List.mem_cons.mp hq with h1 | h1
        · rw [h1]; exact hs
        · unfold findEntry at h
          rw [hs] at h
          simp only [Bool.false_eq_true, if_false] at h
          exact ih.mp h q h1
      · unfold findEntry at h
        rw [hs] at h
        simp at h
    · intro h
      unfold findEntry
      rw [h p (by simp)]
      simp only [Bool.false_eq_true, if_false]
      exact ih.mpr (fun q hq => h q (by simp [hq]))

theorem findEntry_append_skip {ts : List (Schema × Table)} {fs : Schema}
    (l : List (Schema × Table)) (h : ∀ p ∈ ts, setEqS p.1 fs = false) :
    findEntry (ts ++ l) fs = findEntry l fs := by
  induction ts with
  | nil => rfl
  | cons p rest ih =>
    show (if setEqS p.1 fs then some p.2 else findEntry (rest ++ l) fs) = _
    rw [h p (by simp)]
    simp only [Bool.false_eq_true, if_false]
    exact ih (fun q hq => h q (by simp [hq]))

theorem routeUpdate_none_iff {l : List (Schema × Table)} {fs : Schema}
    {fm : RowMap} :
    routeUpdate l fs fm = none ↔ findEntry l fs = none := by
  induction l with
  | nil => simp [routeUpdate, findEntry]
  | cons p rest ih =>
    rcases hs : setEqS p.1 fs with _ | _
    · constructor
      · intro h
        unfold routeUpdate at h
        rw [hs] at h
        simp only [Bool.false_eq_true, if_false] at h
        unfold findEntry
        rw [hs]
        simp only [Bool.false_eq_true, if_false]
        rcases hr : routeUpdate rest fs fm with _ | res
        · exact ih.mp hr
        · rw [hr] at h
          simp at h
      · intro h
        unfold findEntry at h
        rw [hs] at h
        simp only [Bool.false_eq_true, if_false] at h
        unfold routeUpdate
        rw [hs]
        simp only [Bool.false_eq_true, if_false]
        rw [ih.mpr h]
        rfl
    · constructor
      · intro h
        unfold routeUpdate at h
        rw [hs] at h
        simp at h
      · intro h
        unfold findEntry at h
        rw [hs] at h
        simp at h

theorem routeUpdate_append_skip {ts : List (Schema × Table)} {fs : Schema}
    {fm : RowMap} (l : List (Schema × Table))
    (h : ∀ p ∈ ts, setEqS p.1 fs = false) :
    routeUpdate (ts ++ l) fs fm =
      (routeUpdate l fs fm).map (fun res => (ts ++ res.1, res.2)) := by
  induction ts with
  | nil =>
    simp only [List.nil_append]
    rcases hr : routeUpdate l fs fm with _ | res
    · rfl
    · simp
  | cons p rest ih =>
    show (if setEqS p.1 fs then _ else (routeUpdate (rest ++ l) fs fm).map _) = _
    rw [h p (by simp)]
    simp only [Bool.false_eq_true, if_false]
    rw [ih (fun q hq => h q (by simp [hq]))]
    rcases hr : routeUpdate l fs fm with _ | res
    · rfl
    · simp

theorem routeUpdate_single {k : Schema} {t : Table} {fs : Schema} {fm : RowMap}
    (h : setEqS k fs = true) :
    routeUpdate [(k, t)] fs fm =
      some ([(k, (t.update fm).table)],
        (t.update fm).events, (t.update fm).error) := by
  show (if setEqS k fs then _ else _) = _
  rw [h]
  rfl

theorem aggregateCells_single (hr : Nat) (k : Schema) (t : Table) :
    aggregateCells ⟨hr, [(k, t)]⟩ = t.cells_buffer := by
  show List.flatten [t.cells_buffer] = t.cells_buffer
  rw [List.flatten_cons, List.flatten_nil, List.append_nil]

theorem clear_flatten_aux (l : List (Schema × Table)) :
    ((l.map (fun p => (p.1, { p.2 with cells_buffer := ([] : List Cell) }))).map
      (fun p => p.2.cells_buffer)).flatten = [] := by
  induction l with
  | nil => rfl
  | cons p rest ih =>
    rw [List.map_cons, List.map_cons, List.flatten_cons]
    exact ih

theorem aggregateCells_clear (m : MetricsWorkSheet) :
    aggregateCells (clearBuffers m) = [] :=
  clear_flatten_aux m.schema_to_table

theorem getCell_applyCells_last {w : RemoteWS} {l₁ l₂ : List Cell}
    {r c : Nat} {v : Value}
    (h : ∀ x ∈ l₂, (x.1 == r && x.2.1 == c) = false) :
    getCell (applyCells w (l₁ ++ (r, c, v) :: l₂)) r c = v := by
  unfold getCell applyCells
  rw [List.reverse_append, List.reverse_cons, List.append_assoc,
    List.append_assoc]
  rw [find?_append_skip _ (by
    intro x hx
    exact h x (List.mem_reverse.mp hx))]
  rw [show ([(r, c, v)] ++ (l₁.reverse ++ w) : List Cell) =
    (r, c, v) :: (l₁.reverse ++ w) from rfl]
  rw [List.find?_cons_of_pos _ (by simp)]

theorem rowLen_ge {w : RemoteWS} {r c : Nat}
    (h : isNonempty (getCell w r c) = true) : c ≤ rowLen w r := by
  have hfind : ∃ p, w.find? (fun p => p.1 == r && p.2.1 == c) = some p := by
    rcases hf : w.find? (fun p => p.1 == r && p.2.1 == c) with _ | p
    · unfold getCell at h
      rw [hf] at h
      simp [isNonempty] at h
    · exact ⟨p, hf⟩
  rcases hfind with ⟨p, hp⟩
  have hmem := List.mem_of_find?_eq_some hp
  have hcond : p.1 = r ∧ p.2.1 = c := by
    have := List.find?_some hp
    simpa using this
  have hr : p.1 = r := hcond.1
  have hc : p.2.1 = c := hcond.2
  have key : ∀ l : List Cell, p ∈ l → c ≤ l.foldr (fun q acc =>
      if q.1 == r && isNonempty (getCell w r q.2.1) then max q.2.1 acc
      else acc) 0 := by
    intro l hl
    induction l with
    | nil => cases hl
    | cons q rest ih =>
      rcases List.mem_cons.mp hl with h1 | h1
      · subst h1
        rw [List.foldr_cons, if_pos (by rw [hc]; simp [hr, h])]
        rw [hc]
        exact Nat.le_max_left _ _
      · rcases hcnd : (q.1 == r && isNonempty (getCell w r q.2.1)) with _ | _
        · rw [List.foldr_cons, hcnd]
          simp only [Bool.false_eq_true, if_false]
          exact ih h1
        · rw [List.foldr_cons, hcnd, if_pos rfl]
          exact le_trans (ih h1) (Nat.le_max_right _ _)
  exact key w hmem

theorem setEqS_refl (a : Schema) : setEqS a a = true :=
  setEqS_iff.mpr (fun _ => Iff.rfl)

theorem setEqS_symm {a b : Schema} (h : setEqS a b = true) :
    setEqS b a = true :=
  setEqS_iff.mpr (fun x => (setEqS_iff.mp h x).symm)

theorem setEqS_trans {a b c : Schema} (h1 : setEqS a b = true)
    (h2 : setEqS b c = true) : setEqS a c = true :=
  setEqS_iff.mpr (fun x => (setEqS_iff.mp h1 x).trans (setEqS_iff.mp h2 x))

theorem setEqS_false_of {p fsA c : Schema} (hp : setEqS p fsA = false)
    (hc : setEqS c fsA = true) : setEqS p c = false := by
  rcases h : setEqS p c with _ | _
  · rfl
  · exact absurd (setEqS_trans h hc) (by simp [hp])

theorem routeUpdate_keys {l : List (Schema × Table)} {fs : Schema} {fm : RowMap}
    {res : List (Schema × Table) × List NetEvent × Option String}
    (h : routeUpdate l fs fm = some res) :
    res.1.map (fun p => p.1) = l.map (fun p => p.1) := by
  induction l generalizing res with
  | nil => cases h
  | cons p rest ih =>
    unfold routeUpdate at h
    rcases hs : setEqS p.1 fs with _ | _
    · rw [hs] at h
      simp only [Bool.false_eq_true, if_false] at h
      rcases hr : routeUpdate rest fs fm with _ | res'
      · rw [hr] at h; cases h
      · rw [hr] at h
        injection h with h2
        subst h2
        show ((p.1, p.2) :: res'.1).map (fun q => q.1) =
          (p :: rest).map (fun q => q.1)
        rw [List.map_cons, List.map_cons, ih hr]
    · rw [hs] at h
      simp only [if_true] at h
      injection h with h2
      subst h2
      show ((p.1, ((p.2).update fm).table) :: rest).map (fun q => q.1) =
        (p :: rest).map (fun q => q.1)
      rw [List.map_cons, List.map_cons]

theorem headerOfFM_eq {fm : RowMap} {stepv : Value} {rest : RowMap}
    (hp : popStep fm = some (stepv, rest)) :
    headerOfFM fm = headerOf stepv rest := by
  unfold headerOfFM
  rw [hp]

theorem log_metrics_fresh_router (m : MetricsWorkSheet) (w : RemoteWS)
    {metrics : RowMap} {s : Option Int} {stepv : Value} {rest : RowMap}
    (hp : popStep (fullMetrics metrics s) = some (stepv, rest))
    (hru : routeUpdate m.schema_to_table
      ((fullMetrics metrics s).map (fun p => p.1))
      (fullMetrics metrics s) = none) :
    (m.log_metrics w metrics s).router =
      ⟨m.header_row, m.schema_to_table ++
        [((fullMetrics metrics s).map (fun p => p.1),
          ((⟨stagedRowCells m.header_row Value.vstr (headerOf stepv rest)
              (colOffsetOf w m.header_row),
            colOffsetOf w m.header_row, m.header_row + 1,
            headerOf stepv rest⟩ : Table).update
            (fullMetrics metrics s)).table)]⟩ := by
  dsimp only [MetricsWorkSheet.log_metrics]
  rw [hru, mkTable_spec hp w m.header_row]

theorem log_metrics_found_router (m : MetricsWorkSheet) (w : RemoteWS)
    {metrics : RowMap} {s : Option Int}
    {l' : List (Schema × Table)} {ev : List NetEvent} {er : Option String}
    (hru : routeUpdate m.schema_to_table
      ((fullMetrics metrics s).map (fun p => p.1))
      (fullMetrics metrics s) = some (l', ev, er)) :
    (m.log_metrics w metrics s).router = ⟨m.header_row, l'⟩ := by
  dsimp only [MetricsWorkSheet.log_metrics]
  rw [hru]

/-- The frozen key set that a `log_metrics` call routes on. -/
def callSchema (c : RowMap × Option Int) : Schema :=
  (fullMetrics c.1 c.2).map (fun p => p.1)

/-- The worksheet rows assigned to a sequence of `log_metrics` calls: for
each call, the routed table's current `_last_step` (`header_row + 1` for
a schema about to be created, since the freshly constructed table stages
its first data row there), observed just before the call runs. -/
def assignedRows (w : RemoteWS) :
    MetricsWorkSheet → List (RowMap × Option Int) → List Nat
  | _, [] => []
  | m, c :: rest =>
    (match findEntry m.schema_to_table (callSchema c) with
      | some t => t.last_step
      | none => m.header_row + 1) ::
      assignedRows w (m.log_metrics w c.1 c.2).router rest

/-- Run a sequence of `log_metrics` calls (the remote state is unchanged
by logging, which only stages cells locally). -/
def runCalls (w : RemoteWS) :
    MetricsWorkSheet → List (RowMap × Option Int) → MetricsWorkSheet
  | m, [] => m
  | m, c :: rest => runCalls w (m.log_metrics w c.1 c.2).router rest

/-- Invariant of a table created at column block `oA` with header `HA`
under header row `hr`: the block and header never change, the row cursor
stays below no data row, and the buffer is the staged header cells
followed only by cells in rows strictly below the header row. -/
def TblInv (hr oA : Nat) (HA : List String) (t : Table) : Prop :=
  t.col_offset = oA ∧ t.metrics_header = HA ∧ hr + 1 ≤ t.last_step ∧
  ∃ tail, t.cells_buffer = stagedRowCells hr Value.vstr HA oA ++ tail ∧
    ∀ x ∈ tail, hr + 1 ≤ x.1

theorem TblInv_update {hr oA : Nat} {HA : List String} {t : Table}
    (h : TblInv hr oA HA t) (row : RowMap) :
    TblInv hr oA HA (t.update row).table := by
  obtain ⟨h1, h2, h3, tail, h4, h5⟩ := h
  refine ⟨(update_col_offset t row).trans h1, (update_header t row).trans h2,
    le_trans h3 (update_last_step_ge t row), ?_⟩
  obtain ⟨cs, hcs, hrows⟩ := update_buffer_grows t row
  refine ⟨tail ++ cs, ?_, ?_⟩
  · rw [hcs, h4, List.append_assoc]
  · intro x hx
    rcases List.mem_append.mp hx with h6 | h6
    · exact h5 x h6
    · rw [hrows x h6]
      exact h3

theorem colOffsetOf_pos (w : RemoteWS) (hr : Nat) : 1 ≤ colOffsetOf w hr := by
  unfold colOffsetOf
  split <;> omega

/-! Concrete fixtures used by witnesses and counterexamples. -/

/-- A table with one staged cell, as left by a partially flushed session. -/
def demoTable : Table := ⟨[(3, 1, Value.vstr "step")], 1, 4, ["step", "a"]⟩

/-- A router holding `demoTable` under its schema. -/
def demoRouter : MetricsWorkSheet := ⟨3, [(["step", "a"], demoTable)]⟩

/-- A freshly constructed empty-buffer table with header `step, a`. -/
def demoT2 : Table := ⟨[], 1, 4, ["step", "a"]⟩

/-- A complete row for `demoT2`. -/
def demoRow2 : RowMap := [("step", Value.vnum 1), ("a", Value.vnum 2)]

/-- A table whose header has three names, for the partial-update claim. -/
def demoT9 : Table := ⟨[], 1, 4, ["step", "a", "b"]⟩

/-- A row missing the middle header name `a` of `demoT9`. -/
def demoRow9 : RowMap := [("step", Value.vnum 1), ("b", Value.vnum 2)]

/-! Claim theorems. -/

/-- C4: the claim says that with `version=None` the `version` property
resolves to `max(n) + 1` over existing `version_<n>` subfolders, or 0.
The code cannot deliver this: `_get_next_version` interpolates
`self.root_folder_id` into its query, but `__init__` only assigns that
attribute on line 115, after calling `_get_next_version` on line 107, so
construction with `version=None` raises `AttributeError` for every
folder listing; moreover line 114 (`self._version = version`) would
overwrite the computed value with the original `None` argument anyway.
This theorem evaluates the embedded constructor logic at the failing
input `version=None`, and also shows that `_get_next_version` itself
implements the claimed max-plus-one rule once a root folder id exists,
confirming the claim describes the intent. -/
theorem c4_version_resolution_code_bug (files : List DriveFile) :
    initVersion none files = Except.error "AttributeError: root_folder_id" ∧
    get_next_version (some "root")
      [⟨"version_3", "application/vnd.google-apps.folder"⟩,
       ⟨"version_5", "application/vnd.google-apps.folder"⟩,
       ⟨"version_9", "text/plain"⟩] = Except.ok 6 ∧
    get_next_version (some "root") [] = Except.ok 0 :=
  ⟨rfl, rfl, rfl⟩

/-- C5: when the batched remote write of Save raises, the router (and so
every table's pending buffer) is exactly as before the call, and the next
Save aggregates the same cells. -/
theorem c5_failed_save_preserves_buffers (m : MetricsWorkSheet) (w : RemoteWS)
    (ok : Bool) (h : (m.save w ok).raised = true) :
    (m.save w ok).router = m ∧
      aggregateCells (m.save w ok).router = aggregateCells m := by
  rcases ok with _ | _
  · by_cases hagg : aggregateCells m = []
    · unfold MetricsWorkSheet.save at h
      rw [if_pos hagg] at h
      simp at h
    · unfold MetricsWorkSheet.save at h ⊢
      rw [if_neg hagg] at h ⊢
      exact ⟨rfl, rfl⟩
  · by_cases hagg : aggregateCells m = []
    · unfold MetricsWorkSheet.save at h
      rw [if_pos hagg] at h
      simp at h
    · unfold MetricsWorkSheet.save at h
      rw [if_neg hagg, if_pos rfl] at h
      simp at h

/-- Witness for C5 at a concrete router with a non-empty buffer. -/
theorem c5_witness :
    (demoRouter.save [] false).raised = true ∧
      ((demoRouter.save [] false).router = demoRouter ∧
        aggregateCells (demoRouter.save [] false).router =
          aggregateCells demoRouter) :=
  ⟨by decide, c5_failed_save_preserves_buffers demoRouter [] false (by decide)⟩

/-- C6: Save with all buffers empty performs no remote interaction at
all and leaves every state component unchanged; Save with something
staged performs exactly one batched `update_cells` write; and a second
Save immediately after a successful one performs zero remote calls. -/
theorem c6_save_noop_and_once (m : MetricsWorkSheet) (w : RemoteWS) :
    (aggregateCells m = [] →
      m.save w true = ⟨m, w, [], false⟩) ∧
    (aggregateCells m ≠ [] →
      (m.save w true).events = [NetEvent.writeCells (aggregateCells m)]) ∧
    ((m.save w true).router.save (m.save w true).ws true).events = [] := by
  refine ⟨?_, ?_, ?_⟩
  · intro h
    unfold MetricsWorkSheet.save
    rw [if_pos h]
  · intro h
    unfold MetricsWorkSheet.save
    rw [if_neg h, if_pos rfl]
  · by_cases h : aggregateCells m = []
    · have h1 : m.save w true = ⟨m, w, [], false⟩ := by
        unfold MetricsWorkSheet.save
        rw [if_pos h]
      rw [h1]
      exact congrArg SaveResult.events h1
    · have h1 : m.save w true =
          ⟨clearBuffers m, applyCells w (aggregateCells m),
           [NetEvent.writeCells (aggregateCells m)], false⟩ := by
        unfold MetricsWorkSheet.save
        rw [if_neg h, if_pos rfl]
      rw [h1]
      show ((clearBuffers m).save
        (applyCells w (aggregateCells m)) true).events = []
      unfold MetricsWorkSheet.save
      rw [if_pos (aggregateCells_clear m)]

/-- Witness for C6 at a concrete router with a non-empty buffer. -/
theorem c6_witness :
    (demoRouter.save [] true).events =
        [NetEvent.writeCells (aggregateCells demoRouter)] ∧
      ((demoRouter.save [] true).router.save (demoRouter.save [] true).ws
        true).events = [] :=
  ⟨(c6_save_noop_and_once demoRouter []).2.1 (by decide),
   (c6_save_noop_and_once demoRouter []).2.2⟩

/-- C2 as stated is false at this concrete input: `Table.update` issues
the `worksheet.range` call of gdrive.py line 37, a read against the
remote worksheet, so its remote-interaction trace is not empty. -/
theorem c2_counterexample :
    (demoT2.update demoRow2).events ≠ [] := by
  decide

/-- C2 amended: Update performs no network write — its single remote
interaction is the read that fetches the range's cell handles — and its
only state effects are appending the row's cells to the pending buffer
and incrementing `next_row` (the column block and header are untouched). -/
theorem c2_update_no_write (t : Table) (row : RowMap) :
    (∀ e ∈ (t.update row).events, e.isWrite = false) ∧
    (t.update row).events.length = 1 ∧
    ((∀ n ∈ t.metrics_header, (lookupVal row n).isSome) →
      ∃ cs, (t.update row).table.cells_buffer = t.cells_buffer ++ cs ∧
        cs.length = t.metrics_header.length ∧
        (t.update row).table.last_step = t.last_step + 1 ∧
        (t.update row).table.col_offset = t.col_offset ∧
        (t.update row).table.metrics_header = t.metrics_header) := by
  refine ⟨?_, rfl, ?_⟩
  · intro e he
    rw [update_events] at he
    have he2 : e = NetEvent.readRange t.last_step t.col_offset t.last_step
        (t.col_offset + t.metrics_header.length - 1) :=
      List.mem_singleton.mp he
    rw [he2]
    rfl
  · intro h
    rw [update_success h]
    exact ⟨_, rfl, stagedRowCells_length _ _ _ _, rfl, rfl, rfl⟩

/-- Witness for the amended C2 at a concrete table and complete row. -/
theorem c2_witness :
    (∀ e ∈ (demoT2.update demoRow2).events, e.isWrite = false) ∧
    (demoT2.update demoRow2).events.length = 1 ∧
    (∃ cs, (demoT2.update demoRow2).table.cells_buffer =
        demoT2.cells_buffer ++ cs ∧
      cs.length = demoT2.metrics_header.length ∧
      (demoT2.update demoRow2).table.last_step = demoT2.last_step + 1 ∧
      (demoT2.update demoRow2).table.col_offset = demoT2.col_offset ∧
      (demoT2.update demoRow2).table.metrics_header =
        demoT2.metrics_header) :=
  ⟨(c2_update_no_write demoT2 demoRow2).1,
   (c2_update_no_write demoT2 demoRow2).2.1,
   (c2_update_no_write demoT2 demoRow2).2.2 (by decide)⟩

/-- C9: when the routed mapping lacks a header name that is not the
first one, `Table.update` raises `KeyError` on that name but has already
appended the cells for the preceding header names to the pending buffer,
while `next_row` (`_last_step`) is not incremented: Update is not atomic
on error. -/
theorem c9_update_not_atomic (t : Table) (row : RowMap) (pre : List String)
    (n : String) (post : List String)
    (hh : t.metrics_header = pre ++ n :: post)
    (hpre : ∀ x ∈ pre, (lookupVal row x).isSome)
    (hn : lookupVal row n = none) :
    (t.update row).error = some n ∧
    (t.update row).table.last_step = t.last_step ∧
    ∃ cs, (t.update row).table.cells_buffer = t.cells_buffer ++ cs ∧
      cs.length = pre.length ∧
      (pre ≠ [] → cs ≠ []) ∧
      ∀ i, (h : i < cs.length) →
        (cs.get ⟨i, h⟩).1 = t.last_step ∧
        (cs.get ⟨i, h⟩).2.1 = t.col_offset + i := by
  rcases stageRow_missing post hpre hn t.last_step t.col_offset with
    ⟨cs, hsr, hlen, hget⟩
  have hsr2 : stageRow row t.metrics_header t.last_step t.col_offset =
      (cs, some n) := by
    rw [hh]
    exact hsr
  unfold Table.update
  rw [hsr2]
  refine ⟨rfl, rfl, cs, rfl, hlen, ?_, hget⟩
  intro hp hc
  rw [hc] at hlen
  exact hp (List.length_eq_zero.mp hlen.symm)

/-- Witness for C9: `demoT9` has header `step, a, b`; the row is missing
the middle name `a`, so one cell (for `step`) is staged, the error names
`a`, and the row cursor stays put. -/
theorem c9_witness :
    (demoT9.update demoRow9).error = some "a" ∧
    (demoT9.update demoRow9).table.last_step = demoT9.last_step ∧
    ∃ cs, (demoT9.update demoRow9).table.cells_buffer =
        demoT9.cells_buffer ++ cs ∧
      cs.length = (["step"] : List String).length ∧
      ((["step"] : List String) ≠ [] → cs ≠ []) ∧
      ∀ i, (h : i < cs.length) →
        (cs.get ⟨i, h⟩).1 = demoT9.last_step ∧
        (cs.get ⟨i, h⟩).2.1 = demoT9.col_offset + i :=
  c9_update_not_atomic demoT9 demoRow9 ["step"] "a" ["b"]
    (by decide) (by decide) (by decide)

/-- C10: `log_metrics` merges `{**metrics, 'step': step}`, so (i) the
routed mapping's `step` entry always holds the step argument, silently
replacing any metric literally named `step`; (ii) the routed key set is
the same for every step value, including `None`, so such calls hit the
same table; (iii) a table built from the merged dict has a `step` column
exactly when the creating call's step was not `None`; and (iv) `update`
never changes a table's header, so that choice is fixed for the table's
lifetime. -/
theorem c10_step_merge (metrics : RowMap) (s s₁ s₂ : Option Int)
    (w : RemoteWS) (hr : Nat) (t : Table) (row : RowMap) :
    lookupVal (fullMetrics metrics s) "step" = some (stepValue s) ∧
    (fullMetrics metrics s₁).map (fun p => p.1) =
      (fullMetrics metrics s₂).map (fun p => p.1) ∧
    (∃ r, mkTable w hr (fullMetrics metrics s) = some r ∧
      ("step" ∈ r.table.metrics_header ↔ s ≠ none)) ∧
    (t.update row).table.metrics_header = t.metrics_header := by
  refine ⟨lookup_fullMetrics_step metrics s,
    fullMetrics_keys_indep metrics s₁ s₂, ?_, rfl⟩
  have hp := popStep_of_lookup (lookup_fullMetrics_step metrics s)
  refine ⟨_, mkTable_spec hp w hr, ?_⟩
  show "step" ∈ headerOf (stepValue s)
    ((fullMetrics metrics s).filter (fun p => !(p.1 == "step"))) ↔ s ≠ none
  unfold headerOf
  constructor
  · intro hmem hs
    subst hs
    rcases List.mem_append.mp hmem with h1 | h1
    · simp [stepValue] at h1
    · rcases List.mem_map.mp h1 with ⟨q, hq, hqn⟩
      have hqf := (List.mem_filter.mp hq).2
      rw [hqn] at hqf
      simp at hqf
  · intro hs
    apply List.mem_append.mpr
    left
    rcases s with _ | v
    · exact absurd rfl hs
    · simp [stepValue]

/-- C7: routing is by the frozen key set of the merged mapping: (i) two
set-equal key sets look up the same dict entry in any router state;
(ii) an unseen key set appends a brand-new table at the end of the dict;
(iii) a `log_metrics` call never removes an existing schema entry — the
old key-set list is always a prefix of the new one. -/
theorem c7_schema_routing (m : MetricsWorkSheet) (w : RemoteWS)
    (metrics : RowMap) (s : Option Int) :
    (∀ (l : List (Schema × Table)) (fs' : Schema),
      setEqS ((fullMetrics metrics s).map (fun p => p.1)) fs' = true →
        findEntry l ((fullMetrics metrics s).map (fun p => p.1)) =
          findEntry l fs') ∧
    (findEntry m.schema_to_table
        ((fullMetrics metrics s).map (fun p => p.1)) = none →
      ∃ t, (m.log_metrics w metrics s).router.schema_to_table =
        m.schema_to_table ++
          [((fullMetrics metrics s).map (fun p => p.1), t)]) ∧
    (∃ tail, (m.log_metrics w metrics s).router.schema_to_table.map
        (fun p => p.1) =
      m.schema_to_table.map (fun p => p.1) ++ tail) := by
  refine ⟨fun l fs' h => findEntry_congr h l, ?_, ?_⟩
  · intro hfe
    have hru : routeUpdate m.schema_to_table
        ((fullMetrics metrics s).map (fun p => p.1))
        (fullMetrics metrics s) = none :=
      routeUpdate_none_iff.mpr hfe
    have hp := popStep_of_lookup (lookup_fullMetrics_step metrics s)
    exact ⟨_, congrArg MetricsWorkSheet.schema_to_table
      (log_metrics_fresh_router m w hp hru)⟩
  · rcases hru : routeUpdate m.schema_to_table
        ((fullMetrics metrics s).map (fun p => p.1))
        (fullMetrics metrics s) with _ | res
    · have hp := popStep_of_lookup (lookup_fullMetrics_step metrics s)
      refine ⟨[(fullMetrics metrics s).map (fun p => p.1)], ?_⟩
      rw [congrArg MetricsWorkSheet.schema_to_table
        (log_metrics_fresh_router m w hp hru)]
      rw [List.map_append]
      rfl
    · refine ⟨[], ?_⟩
      rcases res with ⟨l', ev, er⟩
      rw [congrArg MetricsWorkSheet.schema_to_table
        (log_metrics_found_router m w hru)]
      rw [List.append_nil]
      exact routeUpdate_keys hru

/-- Witness for C7 at a fresh router: the first call appends its schema. -/
theorem c7_witness :
    ∃ t, ((⟨3, []⟩ : MetricsWorkSheet).log_metrics [] [("a", Value.vnum 1)]
        (some 1)).router.schema_to_table =
      ([] : List (Schema × Table)) ++
        [((fullMetrics [("a", Value.vnum 1)] (some 1)).map (fun p => p.1), t)] :=
  (c7_schema_routing ⟨3, []⟩ [] [("a", Value.vnum 1)] (some 1)).2.1 (by decide)

/-- C8: `Table.__init__` computes the column offset from the remote
header row (1 when empty, length + 2 otherwise), puts `step` first in the
header exactly when the popped step value is not `None` followed by the
remaining names in first-observed order, stages each header name at
`(header_row, column_offset + i)` into the same in-memory buffer that
data rows use, and performs no remote write — the header rides along
with the next flush. -/
theorem c8_table_construction (w : RemoteWS) (hr : Nat) (fm : RowMap)
    (stepv : Value) (rest : RowMap) (hp : popStep fm = some (stepv, rest)) :
    ∃ r, mkTable w hr fm = some r ∧
      r.table.col_offset =
        (if rowLen w hr = 0 then 1 else rowLen w hr + 2) ∧
      r.table.metrics_header =
        (if stepv = Value.vnone then [] else ["step"]) ++
          rest.map (fun p => p.1) ∧
      r.table.cells_buffer =
        stagedRowCells hr Value.vstr r.table.metrics_header
          r.table.col_offset ∧
      r.table.last_step = hr + 1 ∧
      ∀ e ∈ r.events, e.isWrite = false := by
  refine ⟨_, mkTable_spec hp w hr, rfl, rfl, rfl, rfl, ?_⟩
  intro e he
  have he2 : e = NetEvent.readRowValues hr ∨ e = NetEvent.readRange hr
      (colOffsetOf w hr) hr
      (colOffsetOf w hr + (headerOf stepv rest).length - 1) := by
    simpa using he
  rcases he2 with he2 | he2 <;> rw [he2] <;> rfl

/-- Witness for C8 at a concrete metrics dict carrying a `step` entry. -/
theorem c8_witness :
    ∃ r, mkTable [] 3 [("loss", Value.vnum 2), ("step", Value.vnum 1)] =
        some r ∧
      r.table.col_offset = (if rowLen [] 3 = 0 then 1 else rowLen [] 3 + 2) ∧
      r.table.metrics_header =
        (if Value.vnum 1 = Value.vnone then [] else ["step"]) ++
          ([("loss", Value.vnum 2)] : RowMap).map (fun p => p.1) ∧
      r.table.cells_buffer =
        stagedRowCells 3 Value.vstr r.table.metrics_header
          r.table.col_offset ∧
      r.table.last_step = 3 + 1 ∧
      ∀ e ∈ r.events, e.isWrite = false :=
  c8_table_construction [] 3 [("loss", Value.vnum 2), ("step", Value.vnum 1)]
    (Value.vnum 1) [("loss", Value.vnum 2)] (by decide)

theorem c3_aux (hr : Nat) (w : RemoteWS) (fsA : Schema) (HA : List String)
    (hHA : ∀ n ∈ HA, n ∈ fsA) :
    ∀ (calls : List (RowMap × Option Int)) (ts : List (Schema × Table))
      (k : Schema) (t : Table) (j : Nat),
      (∀ p ∈ ts, setEqS p.1 fsA = false) →
      setEqS k fsA = true →
      t.metrics_header = HA →
      t.last_step = hr + 1 + j →
      (∀ c ∈ calls, setEqS (callSchema c) fsA = true) →
      assignedRows w ⟨hr, ts ++ [(k, t)]⟩ calls =
        List.range' (hr + 1 + j) calls.length := by
  intro calls
  induction calls with
  | nil => intro ts k t j _ _ _ _ _; rfl
  | cons c rest ih =>
    intro ts k t j hts hk hH hls hall
    have hc : setEqS (callSchema c) fsA = true := hall c (by simp)
    have hkc : setEqS k (callSchema c) = true :=
      setEqS_trans hk (setEqS_symm hc)
    have htsc : ∀ p ∈ ts, setEqS p.1 (callSchema c) = false :=
      fun p hp => setEqS_false_of (hts p hp) hc
    have hfe : findEntry (ts ++ [(k, t)]) (callSchema c) = some t := by
      rw [findEntry_append_skip [(k, t)] htsc]
      show (if setEqS k (callSchema c) then some t else none) = some t
      rw [hkc]
      simp
    have hsuc : ∀ n ∈ t.metrics_header,
        (lookupVal (fullMetrics c.1 c.2) n).isSome := by
      intro n hn
      rw [hH] at hn
      exact lookupVal_isSome_of_mem
        ((setEqS_iff.mp hc n).mpr (hHA n hn))
    have hru : routeUpdate (ts ++ [(k, t)]) (callSchema c)
        (fullMetrics c.1 c.2) =
        some (ts ++ [(k, (t.update (fullMetrics c.1 c.2)).table)],
          (t.update (fullMetrics c.1 c.2)).events,
          (t.update (fullMetrics c.1 c.2)).error) := by
      rw [routeUpdate_append_skip [(k, t)] htsc, routeUpdate_single hkc]
      rfl
    have hrouter : ((⟨hr, ts ++ [(k, t)]⟩ :
        MetricsWorkSheet).log_metrics w c.1 c.2).router =
        ⟨hr, ts ++ [(k, (t.update (fullMetrics c.1 c.2)).table)]⟩ :=
      log_metrics_found_router _ _ hru
    have hls2 : (t.update (fullMetrics c.1 c.2)).table.last_step =
        hr + 1 + (j + 1) := by
      rw [update_success hsuc]
      show t.last_step + 1 = hr + 1 + (j + 1)
      omega
    have hH2 : (t.update (fullMetrics c.1 c.2)).table.metrics_header = HA :=
      (update_header t _).trans hH
    simp only [assignedRows]
    rw [hfe, hrouter,
      ih ts k (t.update (fullMetrics c.1 c.2)).table (j + 1) hts hk hH2 hls2
        (fun c2 hc2 => hall c2 (List.mem_cons_of_mem c hc2))]
    show t.last_step :: List.range' (hr + 1 + (j + 1)) rest.length =
      List.range' (hr + 1 + j) (rest.length + 1)
    rw [hls]
    rfl

/-- C3: a sequence of `log_metrics` calls all sharing one (fresh) key
set assigns worksheet rows `header_row + 1, header_row + 2, ...`, one
per call, no matter what step values the calls carry (they are free in
`calls`, including `none`, repeats or non-monotonic values). -/
theorem c3_row_numbers (hr : Nat) (ts : List (Schema × Table)) (w : RemoteWS)
    (calls : List (RowMap × Option Int)) (fsA : Schema)
    (hfresh : ∀ p ∈ ts, setEqS p.1 fsA = false)
    (hall : ∀ c ∈ calls, setEqS (callSchema c) fsA = true) :
    assignedRows w ⟨hr, ts⟩ calls = List.range' (hr + 1) calls.length := by
  rcases calls with _ | ⟨c, rest⟩
  · rfl
  · have hc : setEqS (callSchema c) fsA = true := hall c (by simp)
    have htsc : ∀ p ∈ ts, setEqS p.1 (callSchema c) = false :=
      fun p hp => setEqS_false_of (hfresh p hp) hc
    have hfe : findEntry ts (callSchema c) = none :=
      findEntry_none_iff.mpr htsc
    have hru : routeUpdate ts (callSchema c) (fullMetrics c.1 c.2) = none :=
      routeUpdate_none_iff.mpr hfe
    have hp := popStep_of_lookup (lookup_fullMetrics_step c.1 c.2)
    have hrouter := log_metrics_fresh_router ⟨hr, ts⟩ w hp hru
    have hHA : ∀ n ∈ headerOf (stepValue c.2)
        ((fullMetrics c.1 c.2).filter (fun p => !(p.1 == "step"))),
        n ∈ callSchema c :=
      fun n hn => header_mem_keys hp n hn
    have hsucc : ∀ n ∈ (⟨stagedRowCells hr Value.vstr
        (headerOf (stepValue c.2)
          ((fullMetrics c.1 c.2).filter (fun p => !(p.1 == "step"))))
        (colOffsetOf w hr),
        colOffsetOf w hr, hr + 1,
        headerOf (stepValue c.2)
          ((fullMetrics c.1 c.2).filter (fun p => !(p.1 == "step")))⟩ :
          Table).metrics_header,
        (lookupVal (fullMetrics c.1 c.2) n).isSome :=
      fun n hn => lookupVal_isSome_of_mem (hHA n hn)
    simp only [assignedRows]
    rw [hfe, hrouter]
    show (hr + 1) :: assignedRows w ⟨hr, ts ++
        [(callSchema c,
          ((⟨stagedRowCells hr Value.vstr
              (headerOf (stepValue c.2)
                ((fullMetrics c.1 c.2).filter (fun p => !(p.1 == "step"))))
              (colOffsetOf w hr),
            colOffsetOf w hr, hr + 1,
            headerOf (stepValue c.2)
              ((fullMetrics c.1 c.2).filter (fun p => !(p.1 == "step")))⟩ :
            Table).update (fullMetrics c.1 c.2)).table)]⟩ rest =
      List.range' (hr + 1) (rest.length + 1)
    rw [c3_aux hr w fsA
      (headerOf (stepValue c.2)
        ((fullMetrics c.1 c.2).filter (fun p => !(p.1 == "step"))))
      (fun n hn => (setEqS_iff.mp hc n).mp (hHA n hn))
      rest ts (callSchema c)
      ((⟨stagedRowCells hr Value.vstr
          (headerOf (stepValue c.2)
            ((fullMetrics c.1 c.2).filter (fun p => !(p.1 == "step"))))
          (colOffsetOf w hr),
        colOffsetOf w hr, hr + 1,
        headerOf (stepValue c.2)
          ((fullMetrics c.1 c.2).filter (fun p => !(p.1 == "step")))⟩ :
        Table).update (fullMetrics c.1 c.2)).table
      1 hfresh hc
      ((update_header _ _).trans rfl)
      (by rw [update_success hsucc])
      (fun c2 hc2 => hall c2 (List.mem_cons_of_mem c hc2))]
    rfl

/-- Witness for C3: two calls with the same key set and the same step
value 5 land in rows 4 and 5 under header row 3. -/
theorem c3_witness :
    assignedRows [] ⟨3, []⟩
      [([("loss", Value.vnum 1)], some 5), ([("loss", Value.vnum 2)], some 5)] =
      List.range' (3 + 1)
        ([([("loss", Value.vnum 1)], some 5),
          ([("loss", Value.vnum 2)], some 5)] :
          List (RowMap × Option Int)).length :=
  c3_row_numbers 3 [] []
    [([("loss", Value.vnum 1)], some 5), ([("loss", Value.vnum 2)], some 5)]
    ["loss", "step"] (by decide) (by decide)

/-! The C1 scenario: two schemas through one router. -/

/-- Disjointness of two column blocks `[o1, o1 + k1)` and `[o2, o2 + k2)`. -/
abbrev rangesDisjoint (o1 k1 o2 k2 : Nat) : Prop :=
  o1 + k1 ≤ o2 ∨ o2 + k2 ≤ o1

/-- The remote worksheet right after `MetricsWorkSheet.__init__` on an
empty sheet (header row resolved to the default 3 and written back). -/
def cexW : RemoteWS := (initMetricsWorkSheet []).2.1

/-- Two schemas logged back to back with no `save` between them. -/
def cexRouterC1 : MetricsWorkSheet :=
  ((MetricsWorkSheet.log_metrics
      ((MetricsWorkSheet.log_metrics (initMetricsWorkSheet []).1 cexW
        [("a", Value.vnum 1)] (some 1)).router)
      cexW [("b", Value.vnum 2)] (some 1)).router)

/-- C1 as stated is false: logging `{a: 1}` at step 1 and then `{b: 2}`
at step 1 with no Save in between makes both `Table.__init__` calls read
the still-empty remote header row (the first table's header cells are
only buffered locally), so both tables get column offset 1 and their
two-column blocks coincide — the ranges overlap. -/
theorem c1_counterexample :
    (cexRouterC1.schema_to_table.map
      (fun p => (p.2.col_offset, p.2.metrics_header.length))) =
      [(1, 2), (1, 2)] ∧
    ¬ rangesDisjoint 1 2 1 2 := by
  decide

theorem stagedRowCells_ne_nil {names : List String} (h : names ≠ [])
    (r c : Nat) (f : String → Value) :
    stagedRowCells r f names c ≠ [] := by
  rcases names with _ | ⟨a, rest⟩
  · exact absurd rfl h
  · simp [stagedRowCells]

theorem save_single_spec (hr : Nat) (k : Schema) (t : Table) (w : RemoteWS)
    (hne : t.cells_buffer ≠ []) :
    (MetricsWorkSheet.save ⟨hr, [(k, t)]⟩ w true) =
      ⟨⟨hr, [(k, { t with cells_buffer := [] })]⟩,
       applyCells w t.cells_buffer, [.writeCells t.cells_buffer], false⟩ := by
  dsimp only [MetricsWorkSheet.save]
  rw [aggregateCells_single hr k t, if_neg hne, if_pos rfl]
  rfl

/-- After flushing a buffer of the invariant shape, the remote cell under
the last header name holds that name. -/
theorem header_last_cell (w : RemoteWS) (hr oA : Nat) (HA : List String)
    (tail : List Cell) (hne : HA ≠ [])
    (htail : ∀ x ∈ tail, hr + 1 ≤ x.1) :
    getCell (applyCells w (stagedRowCells hr Value.vstr HA oA ++ tail)) hr
      (oA + (HA.length - 1)) = Value.vstr (HA.getLast hne) := by
  have hsplit : stagedRowCells hr Value.vstr HA oA =
      stagedRowCells hr Value.vstr HA.dropLast oA ++
        [(hr, oA + HA.dropLast.length,
          unwrapValue (Value.vstr (HA.getLast hne)))] := by
    conv_lhs => rw [← List.dropLast_concat_getLast hne]
    rw [stagedRowCells_concat]
  have hlen : HA.dropLast.length = HA.length - 1 := List.length_dropLast HA
  rw [hsplit, List.append_assoc]
  rw [show ([(hr, oA + HA.dropLast.length,
      unwrapValue (Value.vstr (HA.getLast hne)))] ++ tail : List Cell) =
      (hr, oA + HA.dropLast.length,
        unwrapValue (Value.vstr (HA.getLast hne))) :: tail from rfl]
  rw [hlen]
  exact getCell_applyCells_last (fun x hx => by
    have hx1 : x.1 ≠ hr := by
      have := htail x hx
      omega
    simp [hx1])

theorem c1_runCalls_inv (w : RemoteWS) (hr oA : Nat) (HA : List String)
    (fsA : Schema) :
    ∀ (calls : List (RowMap × Option Int)) (k : Schema) (t : Table),
      setEqS k fsA = true →
      TblInv hr oA HA t →
      (∀ c ∈ calls, setEqS (callSchema c) fsA = true) →
      ∃ t2, runCalls w ⟨hr, [(k, t)]⟩ calls = ⟨hr, [(k, t2)]⟩ ∧
        TblInv hr oA HA t2 := by
  intro calls
  induction calls with
  | nil => intro k t hk hinv _; exact ⟨t, rfl, hinv⟩
  | cons c rest ih =>
    intro k t hk hinv hall
    have hc := hall c (by simp)
    have hkc : setEqS k (callSchema c) = true :=
      setEqS_trans hk (setEqS_symm hc)
    have hru : routeUpdate [(k, t)] (callSchema c) (fullMetrics c.1 c.2) =
        some ([(k, (t.update (fullMetrics c.1 c.2)).table)],
          (t.update (fullMetrics c.1 c.2)).events,
          (t.update (fullMetrics c.1 c.2)).error) :=
      routeUpdate_single hkc
    have hrouter : ((⟨hr, [(k, t)]⟩ :
        MetricsWorkSheet).log_metrics w c.1 c.2).router =
        ⟨hr, [(k, (t.update (fullMetrics c.1 c.2)).table)]⟩ :=
      log_metrics_found_router _ _ hru
    simp only [runCalls]
    rw [hrouter]
    exact ih k (t.update (fullMetrics c.1 c.2)).table hk
      (TblInv_update hinv _)
      (fun c2 hc2 => hall c2 (List.mem_cons_of_mem c hc2))

/-- The C1 scenario as a state trace: create schema A, log any further
calls with A's key set, Save successfully, then create schema B. -/
def twoSchemaRun (w : RemoteWS) (hr : Nat) (mA : RowMap) (sA : Option Int)
    (mid : List (RowMap × Option Int)) (mB : RowMap) (sB : Option Int) :
    MetricsWorkSheet :=
  let m1 := ((⟨hr, []⟩ : MetricsWorkSheet).log_metrics w mA sA).router
  let m2 := runCalls w m1 mid
  let sr := m2.save w true
  (sr.router.log_metrics sr.ws mB sB).router

/-- C1 amended: provided a successful Save separates the first
appearances of the two schemas (so the first Table's header cells are
written remotely before the second Table reads the header row), the two
Tables occupy disjoint column blocks, ordered by first appearance, with
at least the one-column separator between them; the counterexample shows
the claim is false without that Save.  The first schema's metric names
must be non-empty strings (empty names would leave empty header cells)
and its header must be non-empty; the calls between the two creations
all carry the first schema's key set. -/
theorem c1_blocks_disjoint_after_save (w : RemoteWS) (hr : Nat) (mA : RowMap)
    (sA : Option Int) (mid : List (RowMap × Option Int)) (mB : RowMap)
    (sB : Option Int)
    (hnames : ∀ x ∈ (fullMetrics mA sA).map (fun p => p.1), x ≠ "")
    (hHAne : headerOfFM (fullMetrics mA sA) ≠ [])
    (hmid : ∀ c ∈ mid, setEqS (callSchema c)
      ((fullMetrics mA sA).map (fun p => p.1)) = true)
    (hdiff : setEqS ((fullMetrics mB sB).map (fun p => p.1))
      ((fullMetrics mA sA).map (fun p => p.1)) = false) :
    ∃ tA tB,
      (twoSchemaRun w hr mA sA mid mB sB).schema_to_table =
        [((fullMetrics mA sA).map (fun p => p.1), tA),
         ((fullMetrics mB sB).map (fun p => p.1), tB)] ∧
      tA.metrics_header = headerOfFM (fullMetrics mA sA) ∧
      tB.metrics_header = headerOfFM (fullMetrics mB sB) ∧
      tA.col_offset + tA.metrics_header.length < tB.col_offset := by
  have hpA := popStep_of_lookup (lookup_fullMetrics_step mA sA)
  have hpB := popStep_of_lookup (lookup_fullMetrics_step mB sB)
  have hHAeq : headerOfFM (fullMetrics mA sA) =
      headerOf (stepValue sA)
        ((fullMetrics mA sA).filter (fun p => !(p.1 == "step"))) :=
    headerOfFM_eq hpA
  have hHAne2 : headerOf (stepValue sA)
      ((fullMetrics mA sA).filter (fun p => !(p.1 == "step"))) ≠ [] := by
    rw [← hHAeq]
    exact hHAne
  have hruA : routeUpdate ([] : List (Schema × Table))
      ((fullMetrics mA sA).map (fun p => p.1)) (fullMetrics mA sA) = none := rfl
  have hm1 : ((⟨hr, []⟩ : MetricsWorkSheet).log_metrics w mA sA).router =
      ⟨hr, [(((fullMetrics mA sA).map (fun p => p.1)),
        ((⟨stagedRowCells hr Value.vstr
            (headerOf (stepValue sA)
              ((fullMetrics mA sA).filter (fun p => !(p.1 == "step"))))
            (colOffsetOf w hr),
          colOffsetOf w hr, hr + 1,
          headerOf (stepValue sA)
            ((fullMetrics mA sA).filter (fun p => !(p.1 == "step")))⟩ :
          Table).update (fullMetrics mA sA)).table)]⟩ :=
    (log_metrics_fresh_router ⟨hr, []⟩ w hpA hruA).trans rfl
  have hT0inv : TblInv hr (colOffsetOf w hr)
      (headerOf (stepValue sA)
        ((fullMetrics mA sA).filter (fun p => !(p.1 == "step"))))
      ⟨stagedRowCells hr Value.vstr
          (headerOf (stepValue sA)
            ((fullMetrics mA sA).filter (fun p => !(p.1 == "step"))))
          (colOffsetOf w hr),
        colOffsetOf w hr, hr + 1,
        headerOf (stepValue sA)
          ((fullMetrics mA sA).filter (fun p => !(p.1 == "step")))⟩ :=
    ⟨rfl, rfl, le_refl _, [], (List.append_nil _).symm,
      fun x hx => absurd hx (List.not_mem_nil x)⟩
  have hinv1 := TblInv_update hT0inv (fullMetrics mA sA)
  obtain ⟨t2, hm2, hinv2⟩ := c1_runCalls_inv w hr (colOffsetOf w hr)
    (headerOf (stepValue sA)
      ((fullMetrics mA sA).filter (fun p => !(p.1 == "step"))))
    ((fullMetrics mA sA).map (fun p => p.1)) mid
    ((fullMetrics mA sA).map (fun p => p.1))
    ((⟨stagedRowCells hr Value.vstr
        (headerOf (stepValue sA)
          ((fullMetrics mA sA).filter (fun p => !(p.1 == "step"))))
        (colOffsetOf w hr),
      colOffsetOf w hr, hr + 1,
      headerOf (stepValue sA)
        ((fullMetrics mA sA).filter (fun p => !(p.1 == "step")))⟩ :
      Table).update (fullMetrics mA sA)).table
    (setEqS_refl _) hinv1 hmid
  obtain ⟨hoff2, hhead2, hls2, tail2, hbuf2, htail2⟩ := hinv2
  have hbne : t2.cells_buffer ≠ [] := by
    rw [hbuf2]
    intro hcontra
    rcases List.append_eq_nil.mp hcontra with ⟨h1, _⟩
    exact stagedRowCells_ne_nil hHAne2 hr (colOffsetOf w hr) Value.vstr h1
  have hsave := save_single_spec hr ((fullMetrics mA sA).map (fun p => p.1))
    t2 w hbne
  have hfsAB : setEqS ((fullMetrics mA sA).map (fun p => p.1))
      ((fullMetrics mB sB).map (fun p => p.1)) = false := by
    rcases h : setEqS ((fullMetrics mA sA).map (fun p => p.1))
        ((fullMetrics mB sB).map (fun p => p.1)) with _ | _
    · exact h
    · exact absurd (setEqS_symm h) (by simp [hdiff])
  have hruB : routeUpdate [(((fullMetrics mA sA).map (fun p => p.1)),
      { t2 with cells_buffer := ([] : List Cell) })]
      ((fullMetrics mB sB).map (fun p => p.1)) (fullMetrics mB sB) = none := by
    apply routeUpdate_none_iff.mpr
    apply findEntry_none_iff.mpr
    intro p hp
    have hpe : p = (((fullMetrics mA sA).map (fun p => p.1)),
        { t2 with cells_buffer := ([] : List Cell) }) :=
      List.mem_singleton.mp hp
    rw [hpe]
    exact hfsAB
  have hrB : ((⟨hr, [(((fullMetrics mA sA).map (fun p => p.1)),
      { t2 with cells_buffer := ([] : List Cell) })]⟩ :
      MetricsWorkSheet).log_metrics (applyCells w t2.cells_buffer)
        mB sB).router =
      ⟨hr, [(((fullMetrics mA sA).map (fun p => p.1)),
        { t2 with cells_buffer := ([] : List Cell) }),
       (((fullMetrics mB sB).map (fun p => p.1)),
        ((⟨stagedRowCells hr Value.vstr
            (headerOf (stepValue sB)
              ((fullMetrics mB sB).filter (fun p => !(p.1 == "step"))))
            (colOffsetOf (applyCells w t2.cells_buffer) hr),
          colOffsetOf (applyCells w t2.cells_buffer) hr, hr + 1,
          headerOf (stepValue sB)
            ((fullMetrics mB sB).filter (fun p => !(p.1 == "step")))⟩ :
          Table).update (fullMetrics mB sB)).table)]⟩ :=
    (log_metrics_fresh_router _ _ hpB hruB).trans rfl
  have hlastne : (headerOf (stepValue sA)
      ((fullMetrics mA sA).filter (fun p => !(p.1 == "step")))).getLast
        hHAne2 ≠ "" :=
    hnames _ (header_mem_keys hpA _ (List.getLast_mem hHAne2))
  have hcell : getCell (applyCells w t2.cells_buffer) hr
      (colOffsetOf w hr + ((headerOf (stepValue sA)
        ((fullMetrics mA sA).filter (fun p => !(p.1 == "step")))).length - 1)) =
      Value.vstr ((headerOf (stepValue sA)
        ((fullMetrics mA sA).filter (fun p => !(p.1 == "step")))).getLast
          hHAne2) := by
    rw [hbuf2]
    exact header_last_cell w hr (colOffsetOf w hr)
      (headerOf (stepValue sA)
        ((fullMetrics mA sA).filter (fun p => !(p.1 == "step"))))
      tail2 hHAne2 htail2
  have hnonempty : isNonempty (getCell (applyCells w t2.cells_buffer) hr
      (colOffsetOf w hr + ((headerOf (stepValue sA)
        ((fullMetrics mA sA).filter (fun p => !(p.1 == "step")))).length -
          1))) = true := by
    rw [hcell]
    simp [isNonempty, hlastne]
  have hrowlen := rowLen_ge hnonempty
  have hHAlen : 1 ≤ (headerOf (stepValue sA)
      ((fullMetrics mA sA).filter (fun p => !(p.1 == "step")))).length :=
    List.length_pos.mpr hHAne2
  have hoA1 := colOffsetOf_pos w hr
  have hoB : colOffsetOf (applyCells w t2.cells_buffer) hr =
      rowLen (applyCells w t2.cells_buffer) hr + 2 := by
    unfold colOffsetOf
    rw [if_neg (by omega)]
  refine ⟨{ t2 with cells_buffer := ([] : List Cell) },
    ((⟨stagedRowCells hr Value.vstr
        (headerOf (stepValue sB)
          ((fullMetrics mB sB).filter (fun p => !(p.1 == "step"))))
        (colOffsetOf (applyCells w t2.cells_buffer) hr),
      colOffsetOf (applyCells w t2.cells_buffer) hr, hr + 1,
      headerOf (stepValue sB)
        ((fullMetrics mB sB).filter (fun p => !(p.1 == "step")))⟩ :
      Table).update (fullMetrics mB sB)).table, ?_, ?_, ?_, ?_⟩
  · dsimp only [twoSchemaRun]
    rw [hm1, hm2, hsave]
    exact congrArg MetricsWorkSheet.schema_to_table hrB
  · show t2.metrics_header = headerOfFM (fullMetrics mA sA)
    rw [hhead2, hHAeq]
  · show ((⟨stagedRowCells hr Value.vstr
        (headerOf (stepValue sB)
          ((fullMetrics mB sB).filter (fun p => !(p.1 == "step"))))
        (colOffsetOf (applyCells w t2.cells_buffer) hr),
      colOffsetOf (applyCells w t2.cells_buffer) hr, hr + 1,
      headerOf (stepValue sB)
        ((fullMetrics mB sB).filter (fun p => !(p.1 == "step")))⟩ :
      Table).update (fullMetrics mB sB)).table.metrics_header =
      headerOfFM (fullMetrics mB sB)
    rw [update_header, headerOfFM_eq hpB]
  · show t2.col_offset + t2.metrics_header.length <
      colOffsetOf (applyCells w t2.cells_buffer) hr
    rw [hoff2, hhead2, hoB]
    omega

/-- Witness for the amended C1: schema `{a, step}` then a Save then
schema `{b, step}` on an empty worksheet gives two disjoint ordered
blocks. -/
theorem c1_witness :
    ∃ tA tB,
      (twoSchemaRun [] 3 [("a", Value.vnum 1)] (some 1) []
          [("b", Value.vnum 2)] (some 1)).schema_to_table =
        [((fullMetrics [("a", Value.vnum 1)] (some 1)).map (fun p => p.1),
          tA),
         ((fullMetrics [("b", Value.vnum 2)] (some 1)).map (fun p => p.1),
          tB)] ∧
      tA.metrics_header =
        headerOfFM (fullMetrics [("a", Value.vnum 1)] (some 1)) ∧
      tB.metrics_header =
        headerOfFM (fullMetrics [("b", Value.vnum 2)] (some 1)) ∧
      tA.col_offset + tA.metrics_header.length < tB.col_offset :=
  c1_blocks_disjoint_after_save [] 3 [("a", Value.vnum 1)] (some 1) []
    [("b", Value.vnum 2)] (some 1) (by decide) (by decide) (by decide)
    (by decide)

end GDrive
